import Mathlib

/-!
# Verification of the mitmproxy flow-state registry (`mitmproxy/addons/state.py`)

Shallow embedding of the flow store/view subsystem:

* Python flow objects are identity-bearing and compared by object identity in
  the store's list and set; we model a flow as its identity, a natural number.
* A Python filter callable optionally carries a `pattern` attribute (the text
  it was parsed from); we model it as a structure `Filt` bundling the optional
  pattern and the boolean predicate.  The module-level default `_pos` accepts
  every flow and carries no pattern.
* `FlowView` / `FlowStore` / `State` objects become Lean structures; each
  in-place mutating Python method becomes a function returning the updated
  structure.  The store's Python `set` becomes a `Finset Nat`.
* A view's Python object identity (needed to model `store.views.remove(self)`
  and "the current view object is unchanged") is modelled by a `vid` field;
  `State` hands out fresh `vid`s from a counter.
* Exceptions raised by the external `Flow` collaborator's `resume`/`kill`
  (needed for the batch operations) are modelled by a `fails` oracle; the
  embedding of an iteration returns the list of flows on which the operation
  was actually invoked, stopping at the first failure exactly as an uncaught
  Python exception would abort the `for` loop.
-/

namespace Mitm

/-- A flow is identified by its object identity. -/
abbrev Flow := Nat

/-- Modelled from the spec: the `flowfilter` module (the filter-expression
parser) is not part of the analyzed source; per the spec it is a pure
collaborator producing, from filter text, a predicate from which the displayed
filter text is read back (its `pattern` attribute), with the default predicate
reporting no filter text.  A filter callable is therefore the optional
`pattern` attribute together with the predicate itself. -/
structure Filt where
  pattern : Option String
  pred : Flow → Bool

/-- Source `_pos`: the module-level default predicate accepting every flow; as a plain
function it has no `pattern` attribute, so `getattr(_pos, "pattern", None)`
yields `None`. -/
def _pos : Filt := ⟨none, fun _ => true⟩

/-- Source `FlowView`: a filtered projection; `vid` models Python object identity,
`filter` the active predicate, `list` the projection (`self._list`). -/
structure FlowView where
  vid : Nat
  filter : Filt
  list : List Flow

/-- Source `FlowView._build(flows, flt)`: if a filter is given it becomes the view's
filter; the list is rebuilt by filtering `flows` in order. -/
def FlowView._build (v : FlowView) (flows : List Flow) (flt : Option Filt) : FlowView :=
  let f := flt.getD v.filter
  { v with filter := f, list := flows.filter f.pred }

/-- Source `FlowView._add(f)`: append `f` to the projection iff it satisfies the
view's predicate. -/
def FlowView._add (v : FlowView) (f : Flow) : FlowView :=
  if v.filter.pred f then { v with list := v.list ++ [f] } else v

/-- Source `FlowView._remove(f)`: drop `f` from the projection if present. -/
def FlowView._remove (v : FlowView) (f : Flow) : FlowView :=
  if f ∈ v.list then { v with list := v.list.erase f } else v

/-- Source `FlowView._update(f)`: if `f` is not in the projection, treat as `_add`;
else if it no longer matches, `_remove` it; else leave it in place. -/
def FlowView._update (v : FlowView) (f : Flow) : FlowView :=
  if f ∉ v.list then v._add f
  else if ¬ v.filter.pred f then v._remove f
  else v

/-- Source `FlowView._recalculate(flows)`: rebuild from `flows` keeping the filter. -/
def FlowView._recalculate (v : FlowView) (flows : List Flow) : FlowView :=
  v._build flows none

/-- Source `FlowStore`: the master ordered list (`self._list`), the identity set used
for O(1) membership (`self._set`), and the registered views (`self.views`). -/
structure FlowStore where
  list : List Flow
  sset : Finset Flow
  views : List FlowView

/-- Source `FlowStore.__contains__`: membership via the identity set. -/
def FlowStore.contains (st : FlowStore) (f : Flow) : Bool :=
  f ∈ st.sset

/-- Source `FlowStore._add(f)`: append to the list, insert into the set, then fan the
add out to every registered view. -/
def FlowStore._add (st : FlowStore) (f : Flow) : FlowStore :=
  { st with
      list := st.list ++ [f]
      sset := insert f st.sset
      views := st.views.map (fun v => v._add f) }

/-- Source `FlowStore._update(f)`: if `f` is a member, fan the update out to every
view; otherwise do nothing. -/
def FlowStore._update (st : FlowStore) (f : Flow) : FlowStore :=
  if f ∈ st.sset then { st with views := st.views.map (fun v => v._update f) }
  else st

/-- Source `FlowStore._remove(f)`: remove from list and set, fan the removal out to
every view. -/
def FlowStore._remove (st : FlowStore) (f : Flow) : FlowStore :=
  { st with
      list := st.list.erase f
      sset := st.sset.erase f
      views := st.views.map (fun v => v._remove f) }

/-- Source `FlowStore._recalculate_views()`: every view rebuilds from the store's
current full list. -/
def FlowStore._recalculate_views (st : FlowStore) : FlowStore :=
  { st with views := st.views.map (fun v => v._recalculate st.list) }

/-- Source `FlowStore._extend(flows)`: bulk append to list and set, then rebuild all
views from scratch. -/
def FlowStore._extend (st : FlowStore) (flows : List Flow) : FlowStore :=
  FlowStore._recalculate_views
    { st with
        list := st.list ++ flows
        sset := flows.foldl (fun s f => insert f s) st.sset }

/-- Source `FlowStore._clear()`: empty the list and the set, rebuild all views. -/
def FlowStore._clear (st : FlowStore) : FlowStore :=
  FlowStore._recalculate_views { st with list := [], sset := ∅ }

/-- The flows on which `resume` is invoked by `accept_all`'s loop over `flows`,
when `resume` raises exactly on the flows in `fails`: an uncaught exception
aborts the iteration, so the failing flow is the last one reached. -/
def resumeCalls (fails : Flow → Bool) : List Flow → List Flow
  | [] => []
  | f :: rest => if fails f then [f] else f :: resumeCalls fails rest

/-- The flows on which `kill` is invoked by `kill_all`'s loop: only flows whose
`killable` flag holds are invoked, and an uncaught exception from `kill`
aborts the iteration. -/
def killCalls (killable fails : Flow → Bool) : List Flow → List Flow
  | [] => []
  | f :: rest =>
    if killable f then
      if fails f then [f] else f :: killCalls killable fails rest
    else killCalls killable fails rest

/-- Source `FlowStore.accept_all(master)`: resume every flow in the full store; the
result is the trace of flows whose `resume` was invoked. -/
def FlowStore.accept_all (st : FlowStore) (fails : Flow → Bool) : List Flow :=
  resumeCalls fails st.list

/-- Source `FlowStore.kill_all(master)`: kill every killable flow in the full store;
the result is the trace of flows whose `kill` was invoked. -/
def FlowStore.kill_all (st : FlowStore) (killable fails : Flow → Bool) : List Flow :=
  killCalls killable fails st.list

/-- Source `FlowView.__init__(store, flt)`: default a missing filter to `_pos`, build
the initial projection from the store's current list, and register the view at
the end of `store.views`.  `vid` is the fresh identity of the new object. -/
def mkFlowView (st : FlowStore) (flt : Option Filt) (vid : Nat) : FlowStore :=
  let f := flt.getD _pos
  { st with views := st.views ++ [⟨vid, f, st.list.filter f.pred⟩] }

/-- Source `FlowView._close()`: `store.views.remove(self)` removes the first view that
is the same object, i.e. the first view with this identity. -/
def closeView (vid : Nat) (st : FlowStore) : FlowStore :=
  { st with views := st.views.eraseP (fun w => w.vid == vid) }

/-- Source `FlowView._close()` as a method of the view object itself. -/
def FlowView._close (v : FlowView) (st : FlowStore) : FlowStore :=
  closeView v.vid st

/-- Store operations, for quantifying over sequences of mutations. -/
inductive Op where
  | add (f : Flow)
  | update (f : Flow)
  | remove (f : Flow)
  | extendOp (flows : List Flow)
  | clearOp
deriving DecidableEq

/-- Apply one operation to the store. -/
def applyOp (st : FlowStore) : Op → FlowStore
  | .add f => st._add f
  | .update f => st._update f
  | .remove f => st._remove f
  | .extendOp fs => st._extend fs
  | .clearOp => st._clear

/-- Apply a sequence of operations, left to right. -/
def applyOps (st : FlowStore) : List Op → FlowStore
  | [] => st
  | op :: ops => applyOps (applyOp st op) ops

/-- The stated precondition of each operation: `_add` only for a non-member,
`_remove` only for a member, `_extend` only for a duplicate-free batch of
non-members; `_update` and `_clear` are unconditional. -/
def Op.pre (st : FlowStore) : Op → Prop
  | .add f => f ∉ st.sset
  | .update _ => True
  | .remove f => f ∈ st.sset
  | .extendOp fs => fs.Nodup ∧ ∀ f ∈ fs, f ∉ st.sset
  | .clearOp => True

/-- Every operation of the sequence satisfies its precondition at the state it
is applied in. -/
def PreOps (st : FlowStore) : List Op → Prop
  | [] => True
  | op :: ops => op.pre st ∧ PreOps (applyOp st op) ops

/-- The three incremental primitives `_add`, `_update`, `_remove`. -/
def Op.basic : Op → Prop
  | .add _ => True
  | .update _ => True
  | .remove _ => True
  | .extendOp _ => False
  | .clearOp => False

/-- The view identities an operation fans out to (the elements of `self.views`
iterated by the operation's notification or rebuild loop). -/
def Op.notifies (st : FlowStore) : Op → List Nat
  | .add _ => st.views.map (fun v => v.vid)
  | .update f => if f ∈ st.sset then st.views.map (fun v => v.vid) else []
  | .remove _ => st.views.map (fun v => v.vid)
  | .extendOp _ => st.views.map (fun v => v.vid)
  | .clearOp => st.views.map (fun v => v.vid)

/-- Every registered view's content is exactly the store's list filtered by the
view's predicate, in store order. -/
def ViewsInv (st : FlowStore) : Prop :=
  ∀ v ∈ st.views, v.list = st.list.filter v.filter.pred

/-- The store invariant: a duplicate-free list, the identity set congruent to
the list, and every view a faithful projection. -/
def StoreInv (st : FlowStore) : Prop :=
  st.list.Nodup ∧ st.sset = st.list.toFinset ∧ ViewsInv st

/-- Source `State`: the façade; `flows` the store, `curVid` the identity of the
current view object, `nextVid` the supply of fresh object identities. -/
structure StateR where
  flows : FlowStore
  curVid : Nat
  nextVid : Nat

/-- Source `State.__init__`: a fresh store and the initial accept-all view. -/
def StateR.init : StateR :=
  { flows := mkFlowView ⟨[], ∅, []⟩ none 0, curVid := 0, nextVid := 1 }

/-- The current view object (`self.view`): the registered view bearing the
current identity. -/
def StateR.view (s : StateR) : Option FlowView :=
  s.flows.views.find? (fun v => v.vid == s.curVid)

/-- Source `State.filter_txt`: `getattr(self.view.filter, "pattern", None)`. -/
def StateR.filter_txt (s : StateR) : Option String :=
  match s.view with
  | some v => v.filter.pattern
  | none => none

/-- Close the current view and install a freshly constructed one over the same
store (the shared tail of both branches of `set_view_filter`). -/
def StateR.replaceView (s : StateR) (flt : Option Filt) : StateR :=
  { flows := mkFlowView (closeView s.curVid s.flows) flt s.nextVid
    curVid := s.nextVid
    nextVid := s.nextVid + 1 }

/-- Source `State.set_view_filter(txt)`.  `txt` is `none` for Python `None`; the
Python truthiness test `if txt:` is false for `None` and for `""`.  `parse` is
the external `flowfilter.parse` collaborator, `none` on parse failure.
Returns the Python return value (an error string or `None`) and the new
state. -/
def StateR.set_view_filter (parse : String → Option Filt) (txt : Option String)
    (s : StateR) : Option String × StateR :=
  if txt = s.filter_txt then (none, s)
  else
    match txt with
    | some t =>
      if t ≠ "" then
        match parse t with
        | none => (some "Invalid filter expression.", s)
        | some flt => (none, s.replaceView (some flt))
      else (none, s.replaceView none)
    | none => (none, s.replaceView none)

/-- Source `State.update_flow(f)`: delegate to the store's `_update`. -/
def StateR.update_flow (s : StateR) (f : Flow) : StateR :=
  { s with flows := s.flows._update f }

/-- Source `State.backup(f)`: invoke the flow's own `backup` operation (recorded as a
trace of collaborator calls), then `update_flow`. -/
def StateR.backup (s : StateR) (f : Flow) : List (String × Flow) × StateR :=
  ([("backup", f)], s.update_flow f)

/-- Source `State.revert(f)`: invoke the flow's own `revert` operation (recorded as a
trace of collaborator calls), then `update_flow`. -/
def StateR.revert (s : StateR) (f : Flow) : List (String × Flow) × StateR :=
  ([("revert", f)], s.update_flow f)

/-- The fresh-identity invariant of a state: every registered view's identity
is below the counter (so a newly constructed view is a new object). -/
def StateR.VidInv (s : StateR) : Prop :=
  ∀ v ∈ s.flows.views, v.vid < s.nextVid

/-! ## Basic lemmas about the view primitives -/

@[simp]
theorem FlowView.vid_build (v : FlowView) (l : List Flow) (flt : Option Filt) :
    (v._build l flt).vid = v.vid := rfl

@[simp]
theorem FlowView.vid_add (v : FlowView) (f : Flow) : (v._add f).vid = v.vid := by
  unfold FlowView._add; split <;> rfl

@[simp]
theorem FlowView.vid_remove (v : FlowView) (f : Flow) : (v._remove f).vid = v.vid := by
  unfold FlowView._remove; split <;> rfl

@[simp]
theorem FlowView.vid_update (v : FlowView) (f : Flow) : (v._update f).vid = v.vid := by
  unfold FlowView._update; split
  · exact v.vid_add f
  · split
    · exact v.vid_remove f
    · rfl

@[simp]
theorem FlowView.vid_recalculate (v : FlowView) (l : List Flow) :
    (v._recalculate l).vid = v.vid := rfl

@[simp]
theorem FlowView.filter_add (v : FlowView) (f : Flow) : (v._add f).filter = v.filter := by
  unfold FlowView._add; split <;> rfl

@[simp]
theorem FlowView.filter_remove (v : FlowView) (f : Flow) : (v._remove f).filter = v.filter := by
  unfold FlowView._remove; split <;> rfl

@[simp]
theorem FlowView.filter_update (v : FlowView) (f : Flow) : (v._update f).filter = v.filter := by
  unfold FlowView._update; split
  · exact v.filter_add f
  · split
    · exact v.filter_remove f
    · rfl

@[simp]
theorem FlowView.filter_recalculate (v : FlowView) (l : List Flow) :
    (v._recalculate l).filter = v.filter := rfl

@[simp]
theorem FlowView.list_recalculate (v : FlowView) (l : List Flow) :
    (v._recalculate l).list = l.filter v.filter.pred := rfl

theorem FlowView.list_add (v : FlowView) (f : Flow) :
    (v._add f).list = v.list ++ if v.filter.pred f then [f] else [] := by
  unfold FlowView._add; split <;> simp_all

theorem FlowView.list_remove (v : FlowView) (f : Flow) :
    (v._remove f).list = v.list.erase f := by
  unfold FlowView._remove; split
  · rfl
  · exact (List.erase_of_not_mem (by assumption)).symm

/-- An update of a flow of the store is invisible to a view that faithfully
projects the store: the flow either still matches (and stays in place) or
never matched (and stays absent). -/
theorem FlowView.update_of_proj (v : FlowView) (l : List Flow) (f : Flow)
    (hv : v.list = l.filter v.filter.pred) (hf : f ∈ l) : v._update f = v := by
  by_cases hp : v.filter.pred f
  · have hfv : f ∈ v.list := by rw [hv]; exact List.mem_filter.mpr ⟨hf, hp⟩
    simp [FlowView._update, hfv, hp]
  · have hfv : f ∉ v.list := by rw [hv]; simp [List.mem_filter, hp]
    simp [FlowView._update, hfv, FlowView._add, hp]

/-- Filtering commutes with erasing one element of a duplicate-free list. -/
theorem filter_erase_comm (l : List Flow) (p : Flow → Bool) (f : Flow) (h : l.Nodup) :
    (l.erase f).filter p = (l.filter p).erase f := by
  rw [h.erase_eq_filter, ((h.filter p).erase_eq_filter), List.filter_filter,
    List.filter_filter]
  congr 1
  funext a
  exact Bool.and_comm (p a) (a != f)

/-! ## Store-level lemmas -/

theorem FlowStore.update_not_mem (st : FlowStore) (f : Flow) (h : f ∉ st.sset) :
    st._update f = st := by
  simp [FlowStore._update, h]

/-- Folding `insert` over a list is taking the union with its finset. -/
theorem foldl_insert_eq_union (fs : List Flow) (s : Finset Flow) :
    fs.foldl (fun s2 f => insert f s2) s = s ∪ fs.toFinset := by
  induction fs generalizing s with
  | nil => simp
  | cons a fs ih =>
    rw [List.foldl_cons, ih, List.toFinset_cons]
    ext b
    simp [or_assoc, or_comm, or_left_comm]

/-! ## C6, C7, C8, C10 -/

/-- C6: for every flow `f` not currently a member of the store, `_update f` is
a no-op: the store's list, index, and every registered view are unchanged, and
no view is notified of an update. -/
theorem update_nonmember_noop (st : FlowStore) (f : Flow) (h : f ∉ st.sset) :
    st._update f = st ∧ Op.notifies st (Op.update f) = [] := by
  refine ⟨st.update_not_mem f h, ?_⟩
  simp [Op.notifies, h]

/-- Witness for C6 at a concrete store and non-member flow. -/
theorem update_nonmember_noop_witness :
    FlowStore._update ⟨[0], {0}, []⟩ 5 = ⟨[0], {0}, []⟩ ∧
      Op.notifies ⟨[0], {0}, []⟩ (Op.update 5) = [] :=
  update_nonmember_noop ⟨[0], {0}, []⟩ 5 (by decide)

/-- C7: immediately after `_add f` (with `f` not previously a member) the
membership test answers true, and immediately after `_remove g` (with `g` a
member) it answers false. -/
theorem contains_after_add_remove (st : FlowStore) (f g : Flow)
    (_hf : f ∉ st.sset) (_hg : g ∈ st.sset) :
    (st._add f).contains f = true ∧ (st._remove g).contains g = false := by
  constructor
  · simp [FlowStore.contains, FlowStore._add]
  · simp [FlowStore.contains, FlowStore._remove]

/-- Witness for C7 at a concrete store. -/
theorem contains_after_add_remove_witness :
    (FlowStore._add ⟨[3], {3}, []⟩ 4).contains 4 = true ∧
      (FlowStore._remove ⟨[3], {3}, []⟩ 3).contains 3 = false :=
  contains_after_add_remove ⟨[3], {3}, []⟩ 4 3 (by decide) (by decide)

/-- In a run where no `kill` raises, the flows on which `kill` is invoked are
exactly the killable ones, in order. -/
theorem killCalls_no_failure (killable : Flow → Bool) (l : List Flow) :
    killCalls killable (fun _ => false) l = l.filter killable := by
  induction l with
  | nil => rfl
  | cons f rest ih =>
    by_cases hk : killable f <;> simp [killCalls, hk, List.filter_cons, ih]

/-- C8: `kill_all` invokes `kill` on exactly the flows of the full store whose
`killable` flag holds (irrespective of any view's filter), in store order. -/
theorem kill_all_exactly_killable (st : FlowStore) (killable : Flow → Bool) :
    st.kill_all killable (fun _ => false) = st.list.filter killable :=
  killCalls_no_failure killable st.list

/-- C10: `State.backup` and `State.revert` on a non-member flow still invoke
the flow's own `backup`/`revert` collaborator operation, while leaving the
store's list, index and every registered view unchanged (and cannot fail). -/
theorem backup_revert_nonmember (s : StateR) (f : Flow) (h : f ∉ s.flows.sset) :
    s.backup f = ([("backup", f)], s) ∧ s.revert f = ([("revert", f)], s) := by
  have hu : s.flows._update f = s.flows := s.flows.update_not_mem f h
  constructor
  · simp [StateR.backup, StateR.update_flow, hu]
  · simp [StateR.revert, StateR.update_flow, hu]

/-- Witness for C10 at the initial state and a concrete non-member flow. -/
theorem backup_revert_nonmember_witness :
    StateR.init.backup 7 = ([("backup", 7)], StateR.init) ∧
      StateR.init.revert 7 = ([("revert", 7)], StateR.init) :=
  backup_revert_nonmember StateR.init 7 (by decide)

/-! ## C5: batch operations under per-flow failures -/

/-- C5 is refuted: on the store `[0, 1]` where flow `0`'s `resume` (resp.
`kill`) raises, flow `1` — which comes after the failing one — is never
processed, because the uncaught exception aborts the `for` loop. -/
theorem batch_abort_counterexample :
    (1 : Flow) ∉ FlowStore.accept_all ⟨[0, 1], {0, 1}, []⟩ (fun f => f == 0) ∧
      (1 : Flow) ∉ FlowStore.kill_all ⟨[0, 1], {0, 1}, []⟩ (fun _ => true) (fun f => f == 0) := by
  decide

/-- C5 amended: a failure raised by one flow's `resume` (resp. `kill`, for a
killable flow) terminates the batch iteration at that flow: the earlier flows
are processed (for `kill_all`, the killable ones), the failing flow is the
last one invoked, and no flow after it is processed. -/
theorem batch_abort_at_first_failure (fails killable : Flow → Bool)
    (l1 l2 : List Flow) (g : Flow)
    (h1 : ∀ f ∈ l1, fails f = false) (hg : fails g = true) (hk : killable g = true) :
    resumeCalls fails (l1 ++ g :: l2) = l1 ++ [g] ∧
      killCalls killable fails (l1 ++ g :: l2) = l1.filter killable ++ [g] := by
  induction l1 with
  | nil => simp [resumeCalls, killCalls, hg, hk]
  | cons f rest ih =>
    have hf : fails f = false := h1 f (List.mem_cons_self f rest)
    have ih2 := ih (fun a ha => h1 a (List.mem_cons_of_mem f ha))
    by_cases hkf : killable f = true <;>
      simp [resumeCalls, killCalls, hf, hkf, List.filter_cons, ih2.1, ih2.2]

/-- Witness for the amended C5 on a concrete batch. -/
theorem batch_abort_at_first_failure_witness :
    resumeCalls (fun f => f == 1) ([0] ++ 1 :: [2]) = [0] ++ [1] ∧
      killCalls (fun _ => true) (fun f => f == 1) ([0] ++ 1 :: [2]) =
        List.filter (fun _ => true) [0] ++ [1] :=
  batch_abort_at_first_failure (fun f => f == 1) (fun _ => true) [0] [2] 1
    (by decide) (by decide) (by decide)

/-! ## C4: invalid filter text -/

/-- The state is consistent with the external parser: whatever filter text it
currently displays came from a successful parse.  This holds of every state
reachable through `set_view_filter`. -/
def ParseConsistent (parse : String → Option Filt) (s : StateR) : Prop :=
  ∀ p, s.filter_txt = some p → (parse p).isSome

/-- C4: `set_view_filter` on non-empty text that the parser rejects returns
the failure value and performs no state mutation at all: the store, the
current view object, its predicate and its content are unchanged. -/
theorem set_view_filter_invalid (parse : String → Option Filt) (s : StateR)
    (t : String) (ht : t ≠ "") (hp : parse t = none) (hc : ParseConsistent parse s) :
    StateR.set_view_filter parse (some t) s = (some "Invalid filter expression.", s) := by
  have hne : (some t : Option String) ≠ s.filter_txt := by
    intro he
    have := hc t he.symm
    rw [hp] at this
    simp at this
  simp [StateR.set_view_filter, hne, ht, hp]

/-- Witness for C4 at the initial state with an unparsable text. -/
theorem set_view_filter_invalid_witness :
    StateR.set_view_filter (fun _ => none) (some "~xyz") StateR.init =
      (some "Invalid filter expression.", StateR.init) :=
  set_view_filter_invalid (fun _ => none) StateR.init "~xyz" (by decide) rfl
    (by intro p h; rw [show StateR.init.filter_txt = none from rfl] at h; cases h)

/-! ## C1: the projection invariant is preserved by every operation -/

/-- Fanning an update of a flow of the store out to faithful views changes no
view. -/
theorem FlowStore.update_views_of_inv (st : FlowStore) (f : Flow)
    (hviews : ViewsInv st) (hfl : f ∈ st.list) :
    st.views.map (fun v => v._update f) = st.views := by
  have h2 : st.views.map (fun v => v._update f) = st.views.map id :=
    List.map_eq_map_iff.mpr fun v hv => FlowView.update_of_proj v st.list f (hviews v hv) hfl
  simpa using h2

/-- One step of the store invariant: every operation, applied under its stated
precondition, preserves the invariant. -/
theorem storeInv_applyOp (st : FlowStore) (op : Op) (h : StoreInv st) (hp : op.pre st) :
    StoreInv (applyOp st op) := by
  obtain ⟨hnd, hset, hviews⟩ := h
  cases op with
  | add f =>
    have hfl : f ∉ st.list := fun hmem => hp (hset ▸ List.mem_toFinset.mpr hmem)
    refine ⟨?_, ?_, ?_⟩
    · show (st.list ++ [f]).Nodup
      rw [List.nodup_append]
      exact ⟨hnd, List.nodup_singleton f, fun a ha hb =>
        hfl (by rw [List.mem_singleton] at hb; rw [hb] at ha; exact ha)⟩
    · show insert f st.sset = (st.list ++ [f]).toFinset
      rw [hset]
      ext a
      simp [or_comm]
    · intro v hv
      simp only [applyOp, FlowStore._add, List.mem_map] at hv
      obtain ⟨w, hw, rfl⟩ := hv
      show (w._add f).list = (st.list ++ [f]).filter (w._add f).filter.pred
      rw [FlowView.filter_add, FlowView.list_add, hviews w hw, List.filter_append]
      congr 1
      by_cases hpf : w.filter.pred f <;> simp [hpf]
  | update f =>
    by_cases hf : f ∈ st.sset
    · have hfl : f ∈ st.list := List.mem_toFinset.mp (hset ▸ hf)
      have heq : applyOp st (Op.update f) = st := by
        simp [applyOp, FlowStore._update, hf, FlowStore.update_views_of_inv st f hviews hfl]
      rw [heq]
      exact ⟨hnd, hset, hviews⟩
    · have heq : applyOp st (Op.update f) = st := st.update_not_mem f hf
      rw [heq]
      exact ⟨hnd, hset, hviews⟩
  | remove f =>
    refine ⟨hnd.erase f, ?_, ?_⟩
    · show st.sset.erase f = (st.list.erase f).toFinset
      rw [hset]
      ext a
      simp [Finset.mem_erase, hnd.mem_erase_iff]
    · intro v hv
      simp only [applyOp, FlowStore._remove, List.mem_map] at hv
      obtain ⟨w, hw, rfl⟩ := hv
      show (w._remove f).list = (st.list.erase f).filter (w._remove f).filter.pred
      simp only [FlowView.filter_remove, FlowView.list_remove, hviews w hw,
        filter_erase_comm st.list w.filter.pred f hnd]
  | extendOp fs =>
    obtain ⟨hfsnd, hdisj⟩ := hp
    have hdl : ∀ a ∈ fs, a ∉ st.list :=
      fun a ha hm => hdisj a ha (hset ▸ List.mem_toFinset.mpr hm)
    refine ⟨?_, ?_, ?_⟩
    · show (st.list ++ fs).Nodup
      rw [List.nodup_append]
      exact ⟨hnd, hfsnd, fun a ha hb => hdl a hb ha⟩
    · show fs.foldl (fun s2 f => insert f s2) st.sset = (st.list ++ fs).toFinset
      rw [foldl_insert_eq_union, hset, List.toFinset_append]
    · intro v hv
      simp only [applyOp, FlowStore._extend, FlowStore._recalculate_views,
        List.mem_map] at hv
      obtain ⟨w, hw, rfl⟩ := hv
      rfl
  | clearOp =>
    refine ⟨List.nodup_nil, rfl, ?_⟩
    intro v hv
    simp only [applyOp, FlowStore._clear, FlowStore._recalculate_views,
      List.mem_map] at hv
    obtain ⟨w, hw, rfl⟩ := hv
    rfl

/-- The store invariant is preserved by any sequence of operations whose
preconditions hold along the trace. -/
theorem storeInv_applyOps (st : FlowStore) (ops : List Op) (h : StoreInv st)
    (hp : PreOps st ops) : StoreInv (applyOps st ops) := by
  induction ops generalizing st with
  | nil => exact h
  | cons op ops ih => exact ih _ (storeInv_applyOp st op h hp.1) hp.2

/-- Preconditions along a trace restrict to preconditions along any prefix. -/
theorem preOps_append_left (st : FlowStore) (l1 l2 : List Op)
    (h : PreOps st (l1 ++ l2)) : PreOps st l1 := by
  induction l1 generalizing st with
  | nil => trivial
  | cons op ops ih => exact ⟨h.1, ih _ h.2⟩

/-- C1: along every sequence of `_add`/`_update`/`_remove` operations each
satisfying its stated precondition, after every operation (i.e. after every
prefix of the sequence) the content of every registered view equals the subset
of the store's list satisfying the view's predicate, in store order. -/
theorem views_faithful_after_every_op (st : FlowStore) (ops : List Op)
    (hinv : StoreInv st) (_hbasic : ∀ op ∈ ops, op.basic) (hpre : PreOps st ops) :
    ∀ l1 l2, ops = l1 ++ l2 → ViewsInv (applyOps st l1) := by
  intro l1 l2 heq
  subst heq
  exact (storeInv_applyOps st l1 hinv (preOps_append_left st l1 l2 hpre)).2.2

/-- Witness for C1: a concrete store with one accept-all view, a concrete
sequence of three operations, observed after the first two. -/
theorem views_faithful_after_every_op_witness :
    ViewsInv (applyOps ⟨[], ∅, [⟨0, _pos, []⟩]⟩ [Op.add 0, Op.update 0]) :=
  views_faithful_after_every_op ⟨[], ∅, [⟨0, _pos, []⟩]⟩
    [Op.add 0, Op.update 0, Op.remove 0]
    ⟨List.nodup_nil, rfl, by intro v hv; rw [List.mem_singleton] at hv; rw [hv]; rfl⟩
    (by intro op h; fin_cases h <;> trivial)
    ⟨by show (0 : Flow) ∉ (∅ : Finset Flow); decide, trivial,
      by show (0 : Flow) ∈
          (applyOp (applyOp ⟨[], ∅, [⟨0, _pos, []⟩]⟩ (Op.add 0)) (Op.update 0)).sset
         decide, trivial⟩
    [Op.add 0, Op.update 0] [Op.remove 0] rfl

/-! ## C2: bulk `_extend` vs sequential `_add` -/

/-- Sequential adds append the batch to the store's list. -/
theorem foldAdd_list (fs : List Flow) (st : FlowStore) :
    (fs.foldl (fun s f => s._add f) st).list = st.list ++ fs := by
  induction fs generalizing st with
  | nil => simp
  | cons f rest ih =>
    rw [List.foldl_cons, ih]
    simp [FlowStore._add, List.append_assoc]

/-- Sequential adds extend every registered view by the matching flows of the
batch, in batch order. -/
theorem foldAdd_views (fs : List Flow) (st : FlowStore) :
    (fs.foldl (fun s f => s._add f) st).views
      = st.views.map (fun v => { v with list := v.list ++ fs.filter v.filter.pred }) := by
  induction fs generalizing st with
  | nil =>
    simp only [List.foldl_nil, List.filter_nil, List.append_nil]
    exact (List.map_id st.views).symm
  | cons f rest ih =>
    rw [List.foldl_cons, ih]
    simp only [FlowStore._add, List.map_map]
    apply List.map_eq_map_iff.mpr
    intro v _
    by_cases hp : v.filter.pred f <;>
      simp [Function.comp, FlowView._add, hp, List.filter_cons, List.append_assoc]

/-- C2: on a store whose views are faithful projections, `_extend` over a
duplicate-free batch of non-members leaves every registered view with the same
projection (same identity, same flows, same order) as adding the batch
elements one by one with `_add`. -/
theorem extend_equals_sequential_adds (st : FlowStore) (fs : List Flow)
    (hv : ViewsInv st) (_hnd : fs.Nodup) (_hdisj : ∀ f ∈ fs, f ∉ st.sset) :
    (st._extend fs).views.map (fun v => (v.vid, v.list))
      = (fs.foldl (fun s f => s._add f) st).views.map (fun v => (v.vid, v.list)) := by
  rw [foldAdd_views]
  simp only [FlowStore._extend, FlowStore._recalculate_views, List.map_map]
  apply List.map_eq_map_iff.mpr
  intro v hvv
  simp [Function.comp, hv v hvv, List.filter_append]

/-- Witness for C2 on a concrete one-flow store with one view and the batch
`[1, 2]`. -/
theorem extend_equals_sequential_adds_witness :
    (FlowStore._extend ⟨[0], {0}, [⟨0, _pos, [0]⟩]⟩ [1, 2]).views.map
        (fun v => (v.vid, v.list))
      = (([1, 2] : List Flow).foldl (fun (s : FlowStore) f => s._add f)
            (⟨[0], {0}, [⟨0, _pos, [0]⟩]⟩ : FlowStore)).views.map
          (fun v => (v.vid, v.list)) :=
  extend_equals_sequential_adds ⟨[0], {0}, [⟨0, _pos, [0]⟩]⟩ [1, 2]
    (by intro v hv; rw [List.mem_singleton] at hv; rw [hv]; rfl)
    (by decide) (by decide)

/-! ## C9: a closed view is out of every fan-out loop -/

/-- No store operation changes the identities of the registered views. -/
theorem vids_applyOp (st : FlowStore) (op : Op) :
    (applyOp st op).views.map (fun w => w.vid) = st.views.map (fun w => w.vid) := by
  cases op with
  | add f => simp [applyOp, FlowStore._add, List.map_map, Function.comp]
  | update f =>
    by_cases hf : f ∈ st.sset <;>
      simp [applyOp, FlowStore._update, hf, List.map_map, Function.comp]
  | remove f => simp [applyOp, FlowStore._remove, List.map_map, Function.comp]
  | extendOp fs =>
    simp [applyOp, FlowStore._extend, FlowStore._recalculate_views, List.map_map,
      Function.comp]
  | clearOp =>
    simp [applyOp, FlowStore._clear, FlowStore._recalculate_views, List.map_map,
      Function.comp]

/-- No sequence of store operations changes the identities of the registered
views. -/
theorem vids_applyOps (st : FlowStore) (ops : List Op) :
    (applyOps st ops).views.map (fun w => w.vid) = st.views.map (fun w => w.vid) := by
  induction ops generalizing st with
  | nil => rfl
  | cons op ops ih => rw [applyOps, ih, vids_applyOp]

/-- Removing the first view bearing an identity removes that identity, when
view identities are distinct. -/
theorem vid_not_mem_eraseP (l : List FlowView) (v : FlowView)
    (hnd : (l.map (fun w => w.vid)).Nodup) (hv : v ∈ l) :
    v.vid ∉ (l.eraseP (fun w => w.vid == v.vid)).map (fun w => w.vid) := by
  induction l with
  | nil => cases hv
  | cons w rest ih =>
    rw [List.map_cons, List.nodup_cons] at hnd
    by_cases hw : (w.vid == v.vid) = true
    · have he : List.eraseP (fun u => u.vid == v.vid) (w :: rest) = rest := by
        simp [List.eraseP_cons, hw]
      rw [he]
      have heq : w.vid = v.vid := beq_iff_eq.mp hw
      rw [← heq]
      exact hnd.1
    · have he : List.eraseP (fun u => u.vid == v.vid) (w :: rest)
          = w :: List.eraseP (fun u => u.vid == v.vid) rest := by
        simp [List.eraseP_cons, hw]
      rw [he]
      have hvrest : v ∈ rest := by
        rcases List.mem_cons.mp hv with heq | hmem
        · exact absurd (by rw [heq]; exact beq_self_eq_true w.vid) hw
        · exact hmem
      rw [List.map_cons]
      intro hmem
      rcases List.mem_cons.mp hmem with heq | hmem2
      · exact hw (by rw [heq]; exact beq_self_eq_true w.vid)
      · exact ih hnd.2 hvrest hmem2

/-- C9: once a registered view (with distinct view identities) is closed, no
subsequent store operation references it: after any sequence of further
operations no registered view bears its identity, and the next operation's
fan-out or rebuild loop does not notify it — hence its content never changes
again. -/
theorem closed_view_receives_nothing (st : FlowStore) (v : FlowView)
    (hnd : (st.views.map (fun w => w.vid)).Nodup) (hv : v ∈ st.views)
    (l1 : List Op) (op : Op) :
    v.vid ∉ (applyOps (v._close st) l1).views.map (fun w => w.vid) ∧
      v.vid ∉ Op.notifies (applyOps (v._close st) l1) op := by
  have h2 : v.vid ∉ (v._close st).views.map (fun w => w.vid) :=
    vid_not_mem_eraseP st.views v hnd hv
  have h1 : v.vid ∉ (applyOps (v._close st) l1).views.map (fun w => w.vid) := by
    rw [vids_applyOps]
    exact h2
  refine ⟨h1, ?_⟩
  cases op with
  | update f =>
    by_cases hf : f ∈ (applyOps (v._close st) l1).sset
    · simpa [Op.notifies, hf] using h1
    · simp [Op.notifies, hf]
  | add f => simpa [Op.notifies] using h1
  | remove f => simpa [Op.notifies] using h1
  | extendOp fs => simpa [Op.notifies] using h1
  | clearOp => simpa [Op.notifies] using h1

/-- Witness for C9: close the first of two views, apply an `_add`, and observe
the next update's fan-out. -/
theorem closed_view_receives_nothing_witness :
    (0 : Nat) ∉ (applyOps
        (FlowView._close ⟨0, _pos, []⟩ ⟨[], ∅, [⟨0, _pos, []⟩, ⟨1, _pos, []⟩]⟩)
        [Op.add 5]).views.map (fun w => w.vid) ∧
      (0 : Nat) ∉ Op.notifies (applyOps
        (FlowView._close ⟨0, _pos, []⟩ ⟨[], ∅, [⟨0, _pos, []⟩, ⟨1, _pos, []⟩]⟩)
        [Op.add 5]) (Op.update 5) :=
  closed_view_receives_nothing ⟨[], ∅, [⟨0, _pos, []⟩, ⟨1, _pos, []⟩]⟩ ⟨0, _pos, []⟩
    (by decide) (List.mem_cons_self _ _) [Op.add 5] (Op.update 5)

/-! ## C3: repeating `set_view_filter` with the same text -/

/-- After `replaceView`, the current view is the freshly constructed one. -/
theorem view_replaceView (s : StateR) (flt : Option Filt) (h : s.VidInv) :
    (s.replaceView flt).view =
      some ⟨s.nextVid, flt.getD _pos, s.flows.list.filter (flt.getD _pos).pred⟩ := by
  simp only [StateR.replaceView, StateR.view, mkFlowView, closeView]
  rw [List.find?_append]
  have hleft : (s.flows.views.eraseP (fun w => w.vid == s.curVid)).find?
      (fun v => v.vid == s.nextVid) = none := by
    rw [List.find?_eq_none]
    intro w hw
    have hw2 : w ∈ s.flows.views := (List.eraseP_sublist s.flows.views).mem hw
    simp only [beq_iff_eq]
    exact fun he => absurd (he ▸ h w hw2) (lt_irrefl s.nextVid)
  rw [hleft]
  simp [List.find?_cons]

/-- After `replaceView`, the displayed filter text is the new predicate's
pattern. -/
theorem filter_txt_replaceView (s : StateR) (flt : Option Filt) (h : s.VidInv) :
    (s.replaceView flt).filter_txt = (flt.getD _pos).pattern := by
  unfold StateR.filter_txt
  rw [view_replaceView s flt h]

/-- C3 is refuted for the empty filter text: starting from the initial state
(no active filter), the second of two `set_view_filter("")` calls again closes
and replaces the current view — the current view object identity changes. -/
theorem set_view_filter_empty_not_idempotent :
    ((StateR.set_view_filter (fun _ => none) (some "")
        ((StateR.set_view_filter (fun _ => none) (some "") StateR.init).2)).2).curVid
      ≠ ((StateR.set_view_filter (fun _ => none) (some "") StateR.init).2).curVid := by
  decide

/-- C3 amended: for every text other than the empty string — every absent text
and every non-empty text (whether it parses or not) — calling
`set_view_filter` twice in a row with that text leaves the state after the
second call (in particular the current view object identity and its content)
equal to the state after the first call.  For the empty-string text the second
call replaces the view object again (its content alone is preserved). -/
theorem set_view_filter_twice_same (parse : String → Option Filt)
    (hP : ∀ t flt2, parse t = some flt2 → flt2.pattern = some t)
    (s : StateR) (h : s.VidInv) (txt : Option String) (htxt : txt ≠ some "") :
    (StateR.set_view_filter parse txt (StateR.set_view_filter parse txt s).2).2
      = (StateR.set_view_filter parse txt s).2 := by
  by_cases h0 : txt = s.filter_txt
  · have h1 : StateR.set_view_filter parse txt s = (none, s) := by
      simp [StateR.set_view_filter, h0]
    rw [h1, h1]
  · cases txt with
    | none =>
      have h1 : StateR.set_view_filter parse none s = (none, s.replaceView none) := by
        simp [StateR.set_view_filter, h0]
      rw [h1]
      have h2 : (s.replaceView none).filter_txt = none :=
        filter_txt_replaceView s none h
      simp [StateR.set_view_filter, h2]
    | some t =>
      have ht : ¬ t = "" := fun he => htxt (by rw [he])
      cases hp : parse t with
      | none =>
        have h1 : StateR.set_view_filter parse (some t) s =
            (some "Invalid filter expression.", s) := by
          simp [StateR.set_view_filter, h0, ht, hp]
        rw [h1, h1]
      | some flt =>
        have h1 : StateR.set_view_filter parse (some t) s =
            (none, s.replaceView (some flt)) := by
          simp [StateR.set_view_filter, h0, ht, hp]
        rw [h1]
        have h2 : (s.replaceView (some flt)).filter_txt = some t := by
          rw [filter_txt_replaceView s (some flt) h]
          exact hP t flt hp
        simp [StateR.set_view_filter, h2]

/-- Witness for the amended C3: two calls with absent text from the initial
state. -/
theorem set_view_filter_twice_same_witness :
    (StateR.set_view_filter (fun _ => none) none
        ((StateR.set_view_filter (fun _ => none) none StateR.init).2)).2
      = (StateR.set_view_filter (fun _ => none) none StateR.init).2 :=
  set_view_filter_twice_same (fun _ => none)
    (fun _ _ hcon => Option.noConfusion hcon)
    StateR.init
    (by
      intro v hv
      rw [show StateR.init.flows.views = [⟨0, _pos, []⟩] from rfl,
        List.mem_singleton] at hv
      rw [hv]
      decide)
    none (by simp)

end Mitm
